import Mathlib

/-!
Verification development for `src/sqlfluff/parser_2/segments_base.py`.

We shallowly embed the segment tree engine: `BaseSegment` (composite nodes),
`RawSegment` (leaves) and `UnparsableSegment`, together with the operations
`parse`, `match`/`_match`, `expand`, `apply_fixes`, `realign`,
`iter_unparsables` and the conservation check `check_still_complete`.

Modelling conventions:
- Python exceptions become `Except PyErr`; each raised error kind gets its own
  `PyErr` constructor.
- Machine-level nontermination of the unbounded `recurse=True` path is handled
  with an explicit fuel parameter; running out of fuel is the distinguished
  `PyErr.fuelExhausted`, which no source-level branch ever produces.
- Python object identity is modelled with a `uid : Option Nat` field on every
  node: an operation that returns a node with the same `uid` as its input has
  returned the very same Python object (possibly with fields reassigned in
  place), while every construction of a new object (`cls(...)` in the source)
  yields `uid = none`, standing for a freshly allocated object distinct from
  all pre-existing ones.
- Grammars are external collaborators: a `Grammar` is an opaque matching
  capability (a function from a segment sequence to a raw match value) plus an
  `expected_string`.  Grammars are attached to node kinds through a
  `GrammarEnv`, mirroring the `match_grammar` / `parse_grammar` / `grammar`
  class attributes.
-/

/-- Modelled from the spec: the Position Marker class lives outside this
module (`parser_2`'s marker file is not part of the analysed source).  The
spec describes it as an immutable value ordered by (source offset, statement
index) that supports `advance_by(text, index_delta)`, producing a new marker
offset by the length of the consumed text. -/
structure PosMarker where
  offset : Nat
  statement_index : Int
deriving DecidableEq, Repr

/-- Modelled from the spec: `advance_by` moves the source offset by the length
of the consumed raw text and the statement index by the given delta. -/
def PosMarker.advance_by (p : PosMarker) (raw : String) (idx : Int) : PosMarker :=
  ⟨p.offset + raw.length, p.statement_index + idx⟩

/-- The class-level data of a segment kind (a `BaseSegment`/`RawSegment`
subclass): its identity (`kid`, modelling Python class identity used by
`__eq__`'s `type(self) == type(other)` test), its `type` tag and name, and the
`_is_code` / `_is_comment` flags that `RawSegment.make` bakes into raw kinds. -/
structure SegKind where
  kid : Nat
  typ : String
  name : String
  rawIsCode : Bool
  rawIsComment : Bool
deriving DecidableEq, Repr

/-- The segment tree.  `raw` embeds `RawSegment` (a leaf holding literal
text), `base` embeds a composite `BaseSegment` of some kind, and `unpar`
embeds `UnparsableSegment` (a composite carrying an `expected` diagnostic).
The `uid` field models Python object identity (see the file header). -/
inductive Seg where
  | raw (kind : SegKind) (uid : Option Nat) (rawText : String) (pos : PosMarker)
  | base (kind : SegKind) (uid : Option Nat) (segments : List Seg) (pos : PosMarker)
  | unpar (uid : Option Nat) (segments : List Seg) (pos : PosMarker) (expected : String)
deriving Repr

/-- `self.segments`: the children sequence; `RawSegment.segments` is the empty
list (source: the `segments` property of `RawSegment`). -/
def Seg.segments : Seg → List Seg
  | .raw _ _ _ _ => []
  | .base _ _ segs _ => segs
  | .unpar _ segs _ _ => segs

/-- `self.pos_marker`. -/
def Seg.pos : Seg → PosMarker
  | .raw _ _ _ p => p
  | .base _ _ _ p => p
  | .unpar _ _ p _ => p

/-- The object identity tag (see the file header). -/
def Seg.uid : Seg → Option Nat
  | .raw _ u _ _ => u
  | .base _ u _ _ => u
  | .unpar u _ _ _ => u

/-- In-place reassignment of `self.segments` (`self.segments = ...` in
`parse`): the object identity and every other field are kept. -/
def Seg.withSegments (self : Seg) (segs : List Seg) : Seg :=
  match self with
  | .raw k u t p => .raw k u t p
  | .base k u _ p => .base k u segs p
  | .unpar u _ p e => .unpar u segs p e

mutual

/-- `_reconstruct` / the `raw` property: a raw segment yields its literal
text, a composite yields the concatenation of its children's raw text. -/
def Seg.reconstruct : Seg → String
  | .raw _ _ t _ => t
  | .base _ _ segs _ => reconstructList segs
  | .unpar _ segs _ _ => reconstructList segs

/-- Concatenation of the reconstructed text of a sequence of segments. -/
def reconstructList : List Seg → String
  | [] => ""
  | s :: rest => Seg.reconstruct s ++ reconstructList rest

end

/-- Modelled from the spec: `join_segments_raw` is imported from the missing
`match` module; per the spec it concatenates the reconstructed raw text of a
sequence of nodes. -/
def join_segments_raw (segs : List Seg) : String :=
  reconstructList segs

/-- Python class identity comparison `type(self) == type(other)`. -/
def Seg.sameClass : Seg → Seg → Bool
  | .raw k _ _ _, .raw k' _ _ _ => k.kid == k'.kid
  | .base k _ _ _, .base k' _ _ _ => k.kid == k'.kid
  | .unpar _ _ _ _, .unpar _ _ _ _ => true
  | _, _ => false

/-- `BaseSegment.__eq__`: equal iff same class, same reconstructed raw text
and same position marker. -/
def segEq (a b : Seg) : Bool :=
  a.sameClass b && a.reconstruct == b.reconstruct && a.pos == b.pos

/-- Elementwise tuple comparison of segment sequences (Python `tuple.__eq__`
applied to tuples of segments, as used by `seg_buffer != r.segments`). -/
def listSegEq : List Seg → List Seg → Bool
  | [], [] => true
  | a :: as', b :: bs' => segEq a b && listSegEq as' bs'
  | _, _ => false

mutual

/-- `is_code`: for a raw segment the class-level `_is_code` flag, for a
composite `any(seg.is_code for seg in self.segments)`. -/
def Seg.is_code : Seg → Bool
  | .raw k _ _ _ => k.rawIsCode
  | .base _ _ segs _ => anyIsCode segs
  | .unpar _ segs _ _ => anyIsCode segs

/-- `any([seg.is_code for seg in segs])`. -/
def anyIsCode : List Seg → Bool
  | [] => false
  | s :: rest => Seg.is_code s || anyIsCode rest

end

mutual

/-- `is_comment`: for a raw segment the class-level `_is_comment` flag, for a
composite `all(seg.is_comment for seg in self.segments)`. -/
def Seg.is_comment : Seg → Bool
  | .raw k _ _ _ => k.rawIsComment
  | .base _ _ segs _ => allIsComment segs
  | .unpar _ segs _ _ => allIsComment segs

/-- `all([seg.is_comment for seg in segs])`. -/
def allIsComment : List Seg → Bool
  | [] => true
  | s :: rest => Seg.is_comment s && allIsComment rest

end

/-- `is_raw()`: true iff the segment has no children. -/
def Seg.is_raw (self : Seg) : Bool :=
  self.segments.isEmpty

/-- Is this node an `UnparsableSegment`? -/
def Seg.isUnparsable : Seg → Bool
  | .unpar _ _ _ _ => true
  | _ => false

/-- Modelled from the spec: `MatchResult` comes from the missing `match`
module.  Per the spec it is the pair of the matched and the unmatched
sequence of nodes. -/
structure MatchResult where
  matched : List Seg
  unmatched : List Seg
deriving Repr

/-- `has_match()`: the matched sequence is non-empty. -/
def MatchResult.has_match (m : MatchResult) : Bool :=
  !m.matched.isEmpty

/-- `is_complete()`: the unmatched sequence is empty. -/
def MatchResult.is_complete (m : MatchResult) : Bool :=
  m.unmatched.isEmpty

/-- `from_unmatched(segments)`: nothing matched, the whole input unmatched. -/
def MatchResult.from_unmatched (segs : List Seg) : MatchResult :=
  ⟨[], segs⟩

/-- The raw value a grammar's `_match` may return: `None`, a bare segment, a
homogeneous tuple of segments, or an already-well-formed `MatchResult`
(the shapes the spec lists for `unify`). -/
inductive RawMatch where
  | ofNone
  | ofSeg (s : Seg)
  | ofSegs (l : List Seg)
  | ofMatch (m : MatchResult)

/-- Modelled from the spec: `MatchResult.unify` (missing `match` module)
normalizes a grammar's raw return value into a canonical `MatchResult`; a
bare node or tuple counts as wholly matched, `None` as an empty result.  The
`TypeError` branch for unrecognized shapes cannot arise here because
`RawMatch` enumerates exactly the recognized shapes. -/
def MatchResult.unify : RawMatch → MatchResult
  | .ofNone => ⟨[], []⟩
  | .ofSeg s => ⟨[s], []⟩
  | .ofSegs l => ⟨l, []⟩
  | .ofMatch m => m

/-- An external grammar capability: `_match` behaviour (taking the segment
sequence, `match_depth` and `parse_depth`) plus `expected_string()`. -/
structure Grammar where
  matchFn : List Seg → Nat → Nat → RawMatch
  expectedString : String

/-- The grammar class attributes of each segment kind: `match_grammar`,
`parse_grammar` and the fallback `grammar`. -/
structure GrammarEnv where
  matchGrammar : SegKind → Option Grammar
  parseGrammar : SegKind → Option Grammar
  grammar : SegKind → Option Grammar

/-- `_match_grammar()`: the kind's `match_grammar` if set, else its
`grammar`. -/
def matchGrammarOfKind (env : GrammarEnv) (k : SegKind) : Option Grammar :=
  match env.matchGrammar k with
  | some g => some g
  | none => env.grammar k

/-- `_parse_grammar()`: the kind's `parse_grammar` if set, else its
`grammar`. -/
def parseGrammarOfKind (env : GrammarEnv) (k : SegKind) : Option Grammar :=
  match env.parseGrammar k with
  | some g => some g
  | none => env.grammar k

/-- The parse grammar of a node: kinds resolve through the environment;
`UnparsableSegment` has all grammar class attributes set to `None`. -/
def Seg.parseGrammarOf (self : Seg) (env : GrammarEnv) : Option Grammar :=
  match self with
  | .raw k _ _ _ => parseGrammarOfKind env k
  | .base k _ _ _ => parseGrammarOfKind env k
  | .unpar _ _ _ _ => none

/-- `is_expandable`: `RawSegment` overrides it to `False` unconditionally;
for any other segment it is the truthiness of `_parse_grammar()`. -/
def Seg.is_expandable (self : Seg) (env : GrammarEnv) : Bool :=
  match self with
  | .raw _ _ _ _ => false
  | _ => (self.parseGrammarOf env).isSome

/-- The error taxonomy: each constructor models one Python exception class
raised (or, for `configurationError`, merely claimed by the spec) around this
module.  `fuelExhausted` is the artefact of the explicit fuel used to bound
the unbounded `recurse=True` recursion; no source branch produces it. -/
inductive PyErr where
  | runtimeError (msg : String)
  | typeError (msg : String)
  | notImplementedError (msg : String)
  | valueError (msg : String)
  | attributeError (msg : String)
  | configurationError (msg : String)
  | fuelExhausted
deriving DecidableEq, Repr

/-- Is an error a `ConfigurationError`? -/
def PyErr.isConfigurationError : PyErr → Bool
  | .configurationError _ => true
  | _ => false

/-- Does a result carry a `ConfigurationError`? -/
def errIsConfiguration (r : Except PyErr Seg) : Bool :=
  match r with
  | .error e => e.isConfigurationError
  | .ok _ => false

/-- `check_still_complete(segments_in, matched_segments, unmatched_segments)`:
compares the joined raw text of the input with that of matched ++ unmatched
and raises `RuntimeError` on any discrepancy. -/
def checkStillComplete (segments_in matched_segments unmatched_segments : List Seg) :
    Except PyErr Unit :=
  let initial_str := join_segments_raw segments_in
  let current_str := join_segments_raw (matched_segments ++ unmatched_segments)
  if initial_str = current_str then .ok ()
  else .error (.runtimeError ("Dropped elements in sequence matching! " ++ initial_str ++ " != " ++ current_str))

/-- `BaseSegment.__init__` for a composite kind, with children given as a
list/tuple (the `MatchResult`-shaped input branch is unused inside this
module and omitted): an empty children sequence raises `RuntimeError`; the
position defaults to the first child's; element validation is enforced by
typing.  The constructed object is fresh (`uid = none`). -/
def BaseSegment.init (kind : SegKind) (segments : List Seg) (pos : Option PosMarker) :
    Except PyErr Seg :=
  match segments with
  | [] => .error (.runtimeError ("Setting " ++ kind.name ++ " with a zero length segment set. This shouldn't happen."))
  | s :: _ =>
    let p := match pos with
      | some p => p
      | none => s.pos
    .ok (.base kind none segments p)

/-- `UnparsableSegment.__init__`: pops `expected` from the kwargs and defers
to `BaseSegment.__init__`. -/
def UnparsableSegment.init (segments : List Seg) (expected : String) (pos : Option PosMarker) :
    Except PyErr Seg :=
  match segments with
  | [] => .error (.runtimeError "Setting UnparsableSegment with a zero length segment set. This shouldn't happen.")
  | s :: _ =>
    let p := match pos with
      | some p => p
      | none => s.pos
    .ok (.unpar none segments p expected)

/-- `template.__class__(segments=..., pos_marker=...)`: reconstruct a node of
the same class as `template` with the given children and position.  Calling a
`RawSegment` class with a `segments` keyword is a `TypeError` (its `__init__`
signature is `(raw, pos_marker)`); rebuilding an `UnparsableSegment` without
an `expected` keyword resets its diagnostic to the empty string. -/
def mkSameClass (template : Seg) (segments : List Seg) (pos : PosMarker) :
    Except PyErr Seg :=
  match template with
  | .raw _ _ _ _ => .error (.typeError "RawSegment got an unexpected keyword argument segments")
  | .base k _ _ _ => BaseSegment.init k segments (some pos)
  | .unpar _ _ _ _ => UnparsableSegment.init segments "" (some pos)

/-- `template.__class__(raw=..., pos_marker=...)`: reconstruct a leaf of the
same class as `template`.  Calling a composite class with a `raw` keyword is
a `TypeError`. -/
def mkRawSameClass (template : Seg) (rawText : String) (pos : PosMarker) :
    Except PyErr Seg :=
  match template with
  | .raw k _ _ _ => .ok (.raw k none rawText pos)
  | .base _ _ _ _ => .error (.typeError "BaseSegment got an unexpected keyword argument raw")
  | .unpar _ _ _ _ => .error (.typeError "UnparsableSegment got an unexpected keyword argument raw")

/-- `BaseSegment.match` (a classmethod of the kind `cls`): with no match
grammar (and no fallback) it raises `NotImplementedError`; otherwise it runs
the grammar's `_match`, unifies the result, and on a match wraps the matched
portion in a newly constructed node of this kind. -/
def BaseSegment.matchSeg (env : GrammarEnv) (cls : SegKind) (segments : List Seg)
    (match_depth parse_depth : Nat) : Except PyErr MatchResult :=
  match matchGrammarOfKind env cls with
  | some g =>
    let m := MatchResult.unify (g.matchFn segments (match_depth + 1) parse_depth)
    if m.has_match then
      match BaseSegment.init cls m.matched none with
      | .ok seg => .ok ⟨[seg], m.unmatched⟩
      | .error e => .error e
    else .ok (MatchResult.from_unmatched segments)
  | none => .error (.notImplementedError (cls.name ++ " has no match function implemented"))

/-- `BaseSegment._match` (source name `_match`): the validation/tracing
wrapper around `match`; it re-checks conservation of the input sequence on
the returned result. -/
def BaseSegment.matchWrapped (env : GrammarEnv) (cls : SegKind) (segments : List Seg)
    (match_depth parse_depth : Nat) : Except PyErr MatchResult :=
  match BaseSegment.matchSeg env cls segments match_depth parse_depth with
  | .error e => .error e
  | .ok m =>
    match checkStillComplete segments m.matched m.unmatched with
    | .ok _ => .ok m
    | .error e => .error e

/-- The `recurse` control of `parse`: Python's `True` or an int (with `False`
behaving as the int `0`, since `isinstance(False, int)` holds and `False > 1`
is false). -/
inductive Recurse where
  | always
  | level (n : Int)


/-- The per-child loop of `BaseSegment.expand`, abstracted over the parse
operation applied to expandable children (`stmt.parse(...)` in the source):
a child that is not expandable is passed through unchanged; an expandable
child is parsed and the (single) returned segment spliced in. -/
def expandLoop (parseFn : Seg → Except PyErr Seg) (env : GrammarEnv) :
    List Seg → Except PyErr (List Seg)
  | [] => .ok []
  | stmt :: rest =>
    if !(stmt.is_expandable env) then
      match expandLoop parseFn env rest with
      | .ok rest' => .ok (stmt :: rest')
      | .error e => .error e
    else
      match parseFn stmt with
      | .ok res =>
        match expandLoop parseFn env rest with
        | .ok rest' => .ok (res :: rest')
        | .error e => .error e
      | .error e => .error e

/-- The body of `BaseSegment.expand`: run the per-child loop, then check
conservation of the whole sequence. -/
def expandChecked (parseFn : Seg → Except PyErr Seg) (env : GrammarEnv)
    (segments : List Seg) : Except PyErr (List Seg) :=
  match expandLoop parseFn env segments with
  | .ok segs =>
    match checkStillComplete segments segs [] with
    | .ok _ => .ok segs
    | .error e => .error e
  | .error e => .error e

/-- `BaseSegment.parse(recurse, parse_depth)`: runs the parse grammar's
`_match` over the current children, unifies, checks conservation, resolves
(complete match / incomplete match with an `UnparsableSegment` appended /
no match wrapped whole), reassigning `self.segments` in place each time, and
finally recurses (the inlined `expandChecked` call is exactly
`BaseSegment.expand`, defined below as its wrapper) when `recurse` allows.
The node returned is `self` (same `uid`), not a copy. -/
def Seg.parse (fuel : Nat) (env : GrammarEnv) (recurse : Recurse) (parse_depth : Nat)
    (self : Seg) : Except PyErr Seg :=
  match fuel with
  | 0 => .error .fuelExhausted
  | fuel + 1 =>
    if self.segments.isEmpty then .ok self
    else
      match self.parseGrammarOf env with
      | none => .ok self
      | some g =>
        let m := MatchResult.unify (g.matchFn self.segments 0 parse_depth)
        match checkStillComplete self.segments m.matched m.unmatched with
        | .error e => .error e
        | .ok _ =>
          let segsNew : Except PyErr (List Seg) :=
            if m.has_match then
              if m.is_complete then .ok m.matched
              else
                match UnparsableSegment.init m.unmatched "Nothing..." none with
                | .ok u => .ok (m.matched ++ [u])
                | .error e => .error e
            else
              match UnparsableSegment.init self.segments g.expectedString none with
              | .ok u => .ok [u]
              | .error e => .error e
          match segsNew with
          | .error e => .error e
          | .ok segs1 =>
            let self1 := self.withSegments segs1
            match recurse with
            | .always =>
              match expandChecked
                  (fun stmt => Seg.parse fuel env .always (parse_depth + 1) stmt)
                  env self1.segments with
              | .ok segs2 => .ok (self1.withSegments segs2)
              | .error e => .error e
            | .level n =>
              if n > 1 then
                match expandChecked
                    (fun stmt => Seg.parse fuel env (.level (n - 1)) (parse_depth + 1) stmt)
                    env self1.segments with
                | .ok segs2 => .ok (self1.withSegments segs2)
                | .error e => .error e
              else .ok self1

/-- `BaseSegment.expand(segments, recurse, parse_depth)`: expand every child
(parsing each expandable one with the given recursion budget and parse
depth) and check conservation of the whole sequence afterwards. -/
def BaseSegment.expand (fuel : Nat) (env : GrammarEnv) (recurse : Recurse)
    (parse_depth : Nat) (segments : List Seg) : Except PyErr (List Seg) :=
  expandChecked (fun stmt => Seg.parse fuel env recurse parse_depth stmt) env segments

mutual

/-- `iter_unparsables()`: `BaseSegment` recurses through its children, but
`UnparsableSegment` overrides it to yield itself (and nothing from inside). -/
def Seg.iter_unparsables : Seg → List Seg
  | .raw _ _ _ _ => []
  | .base _ _ segs _ => iterUnparsablesList segs
  | .unpar u segs p e => [.unpar u segs p e]

/-- The children loop of `BaseSegment.iter_unparsables`. -/
def iterUnparsablesList : List Seg → List Seg
  | [] => []
  | s :: rest => Seg.iter_unparsables s ++ iterUnparsablesList rest

end

mutual

/-- Does a subtree contain any `UnparsableSegment` (itself included)?  Used
to phrase "a tree containing exactly one top-level Unparsable node". -/
def Seg.hasUnparsable : Seg → Bool
  | .raw _ _ _ _ => false
  | .base _ _ segs _ => anyHasUnparsable segs
  | .unpar _ _ _ _ => true

/-- Any element of the list contains an `UnparsableSegment`. -/
def anyHasUnparsable : List Seg → Bool
  | [] => false
  | s :: rest => Seg.hasUnparsable s || anyHasUnparsable rest

end

mutual

/-- Structural well-formedness as `realign` requires it: every composite
node in the subtree has a non-empty children sequence (a composite with zero
children makes `realign` hit a constructor error). -/
def Seg.wf : Seg → Bool
  | .raw _ _ _ _ => true
  | .base _ _ segs _ => !segs.isEmpty && wfList segs
  | .unpar _ segs _ _ => !segs.isEmpty && wfList segs

/-- All elements of the list are well-formed. -/
def wfList : List Seg → Bool
  | [] => true
  | s :: rest => Seg.wf s && wfList rest

end

mutual

/-- The rebuild of one child inside `BaseSegment.realign`: a child with
children (`len(seg.segments) > 0`) is rebuilt at the running position and
recursively realigned — the two constructions of the source collapse into
one here, since the intermediate copy has the same class, children and
position as the final realign target — while a child without children is
rebuilt through its class's `raw`-keyword constructor (which is a
`TypeError` for a composite class that happens to have zero children). -/
def realignOne (running : PosMarker) : Seg → Except PyErr Seg
  | .raw k _ t _ => .ok (.raw k none t running)
  | .base k u segs p =>
    match segs with
    | [] => mkRawSameClass (.base k u [] p) (Seg.reconstruct (.base k u [] p)) running
    | s :: rest =>
      match realignList running (s :: rest) with
      | .ok inner => mkSameClass (.base k u (s :: rest) p) inner running
      | .error e => .error e
  | .unpar u segs p e =>
    match segs with
    | [] => mkRawSameClass (.unpar u [] p e) (Seg.reconstruct (.unpar u [] p e)) running
    | s :: rest =>
      match realignList running (s :: rest) with
      | .ok inner => mkSameClass (.unpar u (s :: rest) p e) inner running
      | .error e => .error e

/-- The child loop of `BaseSegment.realign`, threading the running position:
for each child, the statement-index delta against the running position is
preserved, the child is rebuilt at the running position, and the running
position advances by the rebuilt child's raw text and the preserved delta. -/
def realignList (running : PosMarker) : List Seg → Except PyErr (List Seg)
  | [] => .ok []
  | seg :: rest =>
    match realignOne running seg with
    | .error e => .error e
    | .ok seg' =>
      match realignList
          (running.advance_by seg'.reconstruct
            (seg.pos.statement_index - running.statement_index)) rest with
      | .ok rest' => .ok (seg' :: rest')
      | .error e => .error e

end

/-- `BaseSegment.realign()`: returns a copy of this node (same class, same
own position) whose children have been rebuilt with realigned position
markers, recursively. -/
def Seg.realign (self : Seg) : Except PyErr Seg :=
  match realignList self.pos self.segments with
  | .ok out => mkSameClass self out self.pos
  | .error e => .error e

/-- The pending-fix collections, keyed by kind.  A key being present in the
Python dict with a non-empty collection is modelled as the corresponding list
being non-empty (the source deletes a key as soon as its collection drains).
The caller-side collections live outside this module; they are modelled as
ordered collections, matching the spec's drain/consume description. -/
structure Fixes where
  delete : List Seg
  edit : List (Seg × Seg)
  create : List Seg
deriving Repr

/-- Truthiness of the fixes dict: some key still pending. -/
def Fixes.nonEmpty (f : Fixes) : Bool :=
  !f.delete.isEmpty || !f.edit.isEmpty || !f.create.isEmpty

/-- Remove the first element of the collection equal (by `__eq__`) to the
given segment (`collection.remove(seg)`). -/
def removeFirstSegEq : List Seg → Seg → List Seg
  | [], _ => []
  | d :: rest, x => if segEq x d then rest else d :: removeFirstSegEq rest x

/-- Tuple equality of `(anchor, edit)` pairs (componentwise `__eq__`). -/
def pairEq (p q : Seg × Seg) : Bool :=
  segEq p.1 q.1 && segEq p.2 q.2

/-- Remove the first pair equal to the given one (`fixes['edit'].remove(...)`). -/
def removeFirstPairEq : List (Seg × Seg) → Seg × Seg → List (Seg × Seg)
  | [], _ => []
  | d :: rest, x => if pairEq x d then rest else d :: removeFirstPairEq rest x

/-- The delete-pass loop of `apply_fixes`: walk the children left to right,
dropping each child found in the pending delete collection and consuming it
from that collection as encountered. -/
def deleteLoop (del : List Seg) : List Seg → List Seg × List Seg
  | [] => ([], del)
  | seg :: rest =>
    if !del.isEmpty && del.any (fun d => segEq seg d) then
      deleteLoop (removeFirstSegEq del seg) rest
    else
      let (buf, del') := deleteLoop del rest
      (seg :: buf, del')

/-- The delete pass of `apply_fixes` (`if 'delete' in fixes: ...`): reform
the node only when the surviving buffer compares unequal (elementwise
`__eq__`) to the current children. -/
def deletePass (self : Seg) (fixes : Fixes) : Except PyErr (Seg × Fixes) :=
  if fixes.delete.isEmpty then .ok (self, fixes)
  else
    let (buf, del') := deleteLoop fixes.delete self.segments
    if !listSegEq buf self.segments then
      match mkSameClass self buf self.pos with
      | .ok r => .ok (r, ⟨del', fixes.edit, fixes.create⟩)
      | .error e => .error e
    else .ok (self, ⟨del', fixes.edit, fixes.create⟩)

/-- The edit-pass loop of `apply_fixes` (`for anchor, edit in q:` with
`q = fixes['edit']`): Python iterates the collection by position while the
body removes consumed pairs from the same collection, so the loop is modelled
with an explicit cursor over the shrinking list (plus a structural gas
counter, initialized to the collection's length; since the cursor advances
on every iteration and the list never grows, the gas-zero branch coincides
with the cursor having run off the end).  For a pair whose anchor equals
some current child, the child buffer is rebuilt with the replacement
substituted at *every* position whose child equals the anchor, the node is
reformed, and the pair is removed from the pending collection. -/
def editOuter (gas : Nat) (r : Seg) (edits : List (Seg × Seg)) (idx : Nat) :
    Except PyErr (Seg × List (Seg × Seg)) :=
  match gas with
  | 0 => .ok (r, edits)
  | gas + 1 =>
    if h : idx < edits.length then
      let p := edits.get ⟨idx, h⟩
      if r.segments.any (fun s => segEq p.1 s) then
        let buf := r.segments.map (fun seg => if segEq seg p.1 then p.2 else seg)
        match mkSameClass r buf r.pos with
        | .ok r' => editOuter gas r' (removeFirstPairEq edits p) (idx + 1)
        | .error e => .error e
      else editOuter gas r edits (idx + 1)
    else .ok (r, edits)

/-- The edit pass of `apply_fixes` (`if 'edit' in fixes: ...`). -/
def editPass (r : Seg) (fixes : Fixes) : Except PyErr (Seg × Fixes) :=
  if fixes.edit.isEmpty then .ok (r, fixes)
  else
    match editOuter fixes.edit.length r fixes.edit 0 with
    | .ok (r', edits') => .ok (r', ⟨fixes.delete, edits', fixes.create⟩)
    | .error e => .error e

/-- The create-pass loop of `apply_fixes` (`for c in q:` with
`q = fixes['create']`), with the same cursor model (and gas counter) as the
edit pass.  The source's pre/post scan is broken: `post_buffer` is the
node's children *tuple*, so on a node with children the very first scan step
either concatenates a list with that tuple (`tuple(pre_buffer + [c] +
post_buffer)`) — a `TypeError` — when the first child's position marker
equals the creation's target, or calls `post_buffer.pop(0)` on the tuple —
an `AttributeError` — otherwise.  A create fix reaching a composite node
with children therefore always raises; only a childless node lets the scan
fall through, leaving the fix pending. -/
def createOuter (gas : Nat) (r : Seg) (creates : List Seg) (idx : Nat) :
    Except PyErr (Seg × List Seg) :=
  match gas with
  | 0 => .ok (r, creates)
  | gas + 1 =>
    if h : idx < creates.length then
      let c := creates.get ⟨idx, h⟩
      match r.segments with
      | [] => createOuter gas r creates (idx + 1)
      | s :: _ =>
        if s.pos == c.pos then
          .error (.typeError "can only concatenate list (not tuple) to list")
        else
          .error (.attributeError "tuple object has no attribute pop")
    else .ok (r, creates)

/-- The create pass of `apply_fixes` (`if 'create' in fixes: ...`). -/
def createPass (r : Seg) (fixes : Fixes) : Except PyErr (Seg × Fixes) :=
  if fixes.create.isEmpty then .ok (r, fixes)
  else
    match createOuter fixes.create.length r fixes.create 0 with
    | .ok (r', creates') => .ok (r', ⟨fixes.delete, fixes.edit, creates'⟩)
    | .error e => .error e

/-- The recursion step of `apply_fixes`, abstracted over the fix application
applied to each child: apply the remaining fixes to each child in turn,
threading the fix collections through the sequence left to right. -/
def applyFixesLoop (applyFn : Seg → Fixes → Except PyErr (Seg × Fixes)) :
    List Seg → Fixes → Except PyErr (List Seg × Fixes)
  | [], fixes => .ok ([], fixes)
  | seg :: rest, fixes =>
    match applyFn seg fixes with
    | .error e => .error e
    | .ok (s', fixes') =>
      match applyFixesLoop applyFn rest fixes' with
      | .ok (rest', fixes'') => .ok (s' :: rest', fixes'')
      | .error e => .error e

/-- `BaseSegment.apply_fixes(fixes)`: with pending fixes and children, run
the delete pass, the edit pass, recurse through the (surviving) children
threading the shrinking fix collections left to right, reform, run the
create pass, and return the realigned result together with the remaining
fixes; otherwise return `self` itself, untouched. -/
def Seg.applyFixes (fuel : Nat) (self : Seg) (fixes : Fixes) :
    Except PyErr (Seg × Fixes) :=
  match fuel with
  | 0 => .error .fuelExhausted
  | fuel + 1 =>
    if fixes.nonEmpty && !self.is_raw then
      match deletePass self fixes with
      | .error e => .error e
      | .ok (r1, fixes1) =>
        match editPass r1 fixes1 with
        | .error e => .error e
        | .ok (r2, fixes2) =>
          match applyFixesLoop (fun seg fx => Seg.applyFixes fuel seg fx) r2.segments fixes2 with
          | .error e => .error e
          | .ok (buf, fixes3) =>
            match mkSameClass r2 buf r2.pos with
            | .error e => .error e
            | .ok r3 =>
              match createPass r3 fixes3 with
              | .error e => .error e
              | .ok (r4, fixes4) =>
                match r4.realign with
                | .ok r5 => .ok (r5, fixes4)
                | .error e => .error e
    else .ok (self, fixes)


/-- Did the computation return a value (no exception)? -/
def exceptIsOk : Except PyErr Seg → Bool
  | .ok _ => true
  | .error _ => false

/-! ### Concrete fixtures used by witnesses and counterexamples -/

/-- A keyword-style raw kind (`is_code`). -/
def demoKwKind : SegKind := ⟨1, "keyword", "KeywordSegment", true, false⟩

/-- A whitespace-style raw kind (neither code nor comment). -/
def demoWsKind : SegKind := ⟨2, "whitespace", "WhitespaceSegment", false, false⟩

/-- A comment-style raw kind. -/
def demoCommentKind : SegKind := ⟨3, "comment", "CommentSegment", false, true⟩

/-- A composite statement kind. -/
def demoStmtKind : SegKind := ⟨10, "statement", "StatementSegment", false, false⟩

/-- A composite kind used by the wrapping grammar. -/
def demoWrapKind : SegKind := ⟨11, "wrap", "WrapSegment", false, false⟩

/-- `SELECT` keyword leaf. -/
def demoSel : Seg := .raw demoKwKind (some 1) "SELECT" ⟨0, 0⟩

/-- Whitespace leaf. -/
def demoWs : Seg := .raw demoWsKind (some 2) " " ⟨6, 0⟩

/-- `*` keyword leaf. -/
def demoStar : Seg := .raw demoKwKind (some 3) "*" ⟨7, 0⟩

/-- A three-child statement tree for `SELECT *`. -/
def demoTree : Seg := .base demoStmtKind (some 10) [demoSel, demoWs, demoStar] ⟨0, 0⟩

/-- A grammar that matches exactly the first child and leaves the rest
unmatched. -/
def demoHalfGrammar : Grammar :=
  ⟨fun segs _ _ =>
    match segs with
    | a :: rest => .ofMatch ⟨[a], rest⟩
    | [] => .ofNone, "demoExpected"⟩

/-- An environment giving the statement kind the half-matching grammar as
both match and parse grammar. -/
def demoEnv : GrammarEnv :=
  ⟨fun k => if k.kid == 10 then some demoHalfGrammar else none,
   fun k => if k.kid == 10 then some demoHalfGrammar else none,
   fun _ => none⟩

/-- A grammar that matches the whole input completely by wrapping it in a
fresh `WrapSegment` (conserving the raw text). -/
def demoWrapGrammar : Grammar :=
  ⟨fun segs _ _ =>
    .ofMatch ⟨[Seg.base demoWrapKind none segs
      (match segs with | s :: _ => s.pos | [] => ⟨0, 0⟩)], []⟩, "wrap"⟩

/-- An environment giving the statement kind the wrapping parse grammar. -/
def demoEnvWrap : GrammarEnv :=
  ⟨fun _ => none,
   fun k => if k.kid == 10 then some demoWrapGrammar else none,
   fun _ => none⟩

/-- An environment defining no grammar at all for any kind. -/
def demoNoGrammarEnv : GrammarEnv :=
  ⟨fun _ => none, fun _ => none, fun _ => none⟩

/-- An environment that (vacuously) equips even the raw keyword kind with
grammars, to exercise `RawSegment.is_expandable`'s unconditional override. -/
def demoEnvRawGrammars : GrammarEnv :=
  ⟨fun _ => some demoHalfGrammar,
   fun _ => some demoHalfGrammar,
   fun _ => some demoHalfGrammar⟩

/-- The result of parsing `demoTree` under `demoEnvWrap` (complete match):
the same object (`uid` 10) whose children were reassigned in place. -/
def demoParsedWrap : Seg :=
  .base demoStmtKind (some 10)
    [.base demoWrapKind none [demoSel, demoWs, demoStar] ⟨0, 0⟩] ⟨0, 0⟩

/-- The realignment of `demoTree`: a freshly constructed copy. -/
def demoRealigned : Seg :=
  .base demoStmtKind none
    [.raw demoKwKind none "SELECT" ⟨0, 0⟩,
     .raw demoWsKind none " " ⟨6, 0⟩,
     .raw demoKwKind none "*" ⟨7, 0⟩] ⟨0, 0⟩

/-- First of two structurally equal children (same class, raw text and
position, distinct objects). -/
def demoDupA : Seg := .raw demoKwKind (some 21) "x" ⟨0, 0⟩

/-- Second of two structurally equal children. -/
def demoDupA2 : Seg := .raw demoKwKind (some 22) "x" ⟨0, 0⟩

/-- The replacement segment of the edit fix. -/
def demoEditB : Seg := .raw demoKwKind (some 23) "y" ⟨0, 0⟩

/-- A node with two structurally equal children. -/
def demoDupTree : Seg := .base demoStmtKind (some 30) [demoDupA, demoDupA2] ⟨0, 0⟩

/-- An unparsable span nested *inside* another unparsable span. -/
def demoInnerUnp : Seg := .unpar none [demoStar] ⟨7, 0⟩ "inner"

/-- The single top-level unparsable node, wrapping nested structure that
itself contains another unparsable node. -/
def demoOuterUnp : Seg := .unpar none [demoWs, demoInnerUnp] ⟨6, 0⟩ "outer"

/-- A tree containing exactly one top-level unparsable node. -/
def demoUnpTree : Seg := .base demoStmtKind none [demoSel, demoOuterUnp] ⟨0, 0⟩

/-- The match result produced by `matchWrapped demoEnv demoStmtKind
[demoSel, demoWs]`: the matched half wrapped in a new statement node. -/
def demoM : MatchResult :=
  ⟨[.base demoStmtKind none [demoSel] ⟨0, 0⟩], [demoWs]⟩

/-- The unified result of the half grammar on `demoTree`'s children. -/
def demoM2 : MatchResult :=
  ⟨[demoSel], [demoWs, demoStar]⟩

/-- The edit fix targeting the duplicated child. -/
def demoDupFixes : Fixes := ⟨[], [(demoDupA, demoEditB)], []⟩

/-- No pending fixes. -/
def demoEmptyFixes : Fixes := ⟨[], [], []⟩

/-- The result of `apply_fixes` on `demoDupTree` with `demoDupFixes`: a
freshly constructed, realigned node. -/
def demoDupFixed : Seg :=
  .base demoStmtKind none
    [.raw demoKwKind none "y" ⟨0, 0⟩, .raw demoKwKind none "y" ⟨1, 0⟩] ⟨0, 0⟩

/-! ### Helper lemmas -/

theorem anyIsCode_iff (l : List Seg) :
    anyIsCode l = true ↔ ∃ c ∈ l, Seg.is_code c = true := by
  induction l with
  | nil => simp [anyIsCode]
  | cons s rest ih => simp [anyIsCode, ih]

theorem allIsComment_iff (l : List Seg) :
    allIsComment l = true ↔ ∀ c ∈ l, Seg.is_comment c = true := by
  induction l with
  | nil => simp [allIsComment]
  | cons s rest ih => simp [allIsComment, ih]

theorem iterUnparsablesList_append (a b : List Seg) :
    iterUnparsablesList (a ++ b) = iterUnparsablesList a ++ iterUnparsablesList b := by
  induction a with
  | nil => simp [iterUnparsablesList]
  | cons s rest ih => simp [iterUnparsablesList, ih]

theorem noUnparsable_iter_empty_all : ∀ N : Nat,
    (∀ s : Seg, sizeOf s ≤ N → Seg.hasUnparsable s = false →
      Seg.iter_unparsables s = []) ∧
    (∀ l : List Seg, sizeOf l ≤ N → anyHasUnparsable l = false →
      iterUnparsablesList l = []) := by
  intro N
  induction N using Nat.strong_induction_on with
  | _ N ih =>
    constructor
    · intro s hsz hno
      cases s with
      | raw k u t p => simp [Seg.iter_unparsables]
      | base k u segs p =>
        have hlt : sizeOf segs < sizeOf (Seg.base k u segs p) := by
          simp
          omega
        have hno' : anyHasUnparsable segs = false := by
          simpa [Seg.hasUnparsable] using hno
        have h2 := (ih (sizeOf segs) (lt_of_lt_of_le hlt hsz)).2 segs le_rfl hno'
        simpa [Seg.iter_unparsables] using h2
      | unpar u segs p e => simp [Seg.hasUnparsable] at hno
    · intro l hsz hno
      cases l with
      | nil => simp [iterUnparsablesList]
      | cons s rest =>
        have hs : sizeOf s < sizeOf (s :: rest) := by
          simp
          omega
        have hr : sizeOf rest < sizeOf (s :: rest) := by
          simp
        have hno1 : Seg.hasUnparsable s = false ∧ anyHasUnparsable rest = false := by
          simpa [anyHasUnparsable, Bool.or_eq_false_iff] using hno
        have h1 := (ih (sizeOf s) (lt_of_lt_of_le hs hsz)).1 s le_rfl hno1.1
        have h2 := (ih (sizeOf rest) (lt_of_lt_of_le hr hsz)).2 rest le_rfl hno1.2
        simp [iterUnparsablesList, h1, h2]

/-! ### Claim theorems -/

/-- C5 (counterexample): constructing a composite node with an empty
children sequence fails with a `RuntimeError`-class error — the same class
as the conservation-breach error — not with a distinguished
`ConfigurationError` as the claim states. -/
theorem empty_children_cex_runtime_not_configuration :
    errIsConfiguration (BaseSegment.init demoStmtKind [] none) = false ∧
    BaseSegment.init demoStmtKind [] none =
      .error (.runtimeError "Setting StatementSegment with a zero length segment set. This shouldn't happen.") :=
  ⟨rfl, rfl⟩

/-- C5 (amended): for every composite node kind, constructing a node with an
empty children sequence always fails — never producing a node — but with a
`RuntimeError`-class error (not distinguished by class from the
conservation-breach error). -/
theorem empty_children_raises_runtime_error (kind : SegKind) (pos : Option PosMarker) :
    BaseSegment.init kind [] pos =
      .error (.runtimeError ("Setting " ++ kind.name ++ " with a zero length segment set. This shouldn't happen.")) :=
  rfl

/-- C6: for a node kind with neither a match grammar nor a fallback grammar,
`match` fails with the `NotImplementedError`-class error on any input and
never returns a match result. -/
theorem match_without_grammar_raises_not_implemented
    (env : GrammarEnv) (cls : SegKind) (segments : List Seg) (md pd : Nat)
    (hmg : env.matchGrammar cls = none) (hg : env.grammar cls = none) :
    BaseSegment.matchSeg env cls segments md pd =
      .error (.notImplementedError (cls.name ++ " has no match function implemented")) := by
  simp [BaseSegment.matchSeg, matchGrammarOfKind, hmg, hg]

/-- C6 witness at a concrete environment and input. -/
theorem match_without_grammar_raises_not_implemented_witness :
    BaseSegment.matchSeg demoNoGrammarEnv demoStmtKind [demoSel] 0 0 =
      .error (.notImplementedError "StatementSegment has no match function implemented") :=
  match_without_grammar_raises_not_implemented demoNoGrammarEnv demoStmtKind [demoSel] 0 0 rfl rfl

/-- C9: for a composite (Base) node, `is_code` holds iff at least one child
is code, and `is_comment` holds iff every child is a comment. -/
theorem composite_is_code_any_is_comment_all
    (k : SegKind) (u : Option Nat) (segs : List Seg) (p : PosMarker) :
    (Seg.is_code (.base k u segs p) = true ↔ ∃ c ∈ segs, Seg.is_code c = true) ∧
    (Seg.is_comment (.base k u segs p) = true ↔ ∀ c ∈ segs, Seg.is_comment c = true) := by
  constructor
  · simpa [Seg.is_code] using anyIsCode_iff segs
  · simpa [Seg.is_comment] using allIsComment_iff segs

/-- C10: a raw segment is never expandable — whatever grammars its kind is
given — and the expansion loop passes it through unchanged without invoking
the parse operation on it (the equation holds for *every* parse function). -/
theorem raw_not_expandable_expand_passes_through
    (env : GrammarEnv) (k : SegKind) (u : Option Nat) (t : String) (p : PosMarker)
    (parseFn : Seg → Except PyErr Seg) (rest : List Seg) :
    Seg.is_expandable (.raw k u t p) env = false ∧
    expandLoop parseFn env (.raw k u t p :: rest) =
      Except.map (fun l => (.raw k u t p) :: l) (expandLoop parseFn env rest) := by
  constructor
  · rfl
  · cases h : expandLoop parseFn env rest <;>
      simp [expandLoop, Seg.is_expandable, h, Except.map]

/-- C8: `iter_unparsables` on a tree whose children are an unparsable node
surrounded by unparsable-free subtrees yields exactly that unparsable node,
never anything from inside it (its own wrapped children are unconstrained). -/
theorem iter_unparsables_isolates_top_level
    (k : SegKind) (u : Option Nat) (p : PosMarker) (pre post : List Seg) (uu : Seg)
    (hu : uu.isUnparsable = true)
    (hpre : anyHasUnparsable pre = false)
    (hpost : anyHasUnparsable post = false) :
    Seg.iter_unparsables (.base k u (pre ++ uu :: post) p) = [uu] := by
  have h1 := (noUnparsable_iter_empty_all (sizeOf pre)).2 pre le_rfl hpre
  have h2 := (noUnparsable_iter_empty_all (sizeOf post)).2 post le_rfl hpost
  have hself : Seg.iter_unparsables uu = [uu] := by
    cases uu with
    | raw _ _ _ _ => simp [Seg.isUnparsable] at hu
    | base _ _ _ _ => simp [Seg.isUnparsable] at hu
    | unpar u2 segs2 p2 e2 => simp [Seg.iter_unparsables]
  simp [Seg.iter_unparsables, iterUnparsablesList_append, iterUnparsablesList, h1, h2, hself]

/-- C8 witness: the demo tree holds one top-level unparsable node which
itself wraps nested structure containing a further unparsable node; exactly
the top-level one is reported. -/
theorem iter_unparsables_isolates_top_level_witness :
    Seg.iter_unparsables demoUnpTree = [demoOuterUnp] :=
  iter_unparsables_isolates_top_level demoStmtKind none ⟨0, 0⟩ [demoSel] [] demoOuterUnp
    rfl rfl rfl

theorem checkStillComplete_ok {a b c : List Seg} {x : Unit}
    (h : checkStillComplete a b c = .ok x) :
    join_segments_raw a = join_segments_raw (b ++ c) := by
  by_cases hc : join_segments_raw a = join_segments_raw (b ++ c)
  · exact hc
  · simp [checkStillComplete, hc] at h

theorem checkStillComplete_error {a b c : List Seg}
    (h : ¬ join_segments_raw a = join_segments_raw (b ++ c)) :
    checkStillComplete a b c =
      .error (.runtimeError ("Dropped elements in sequence matching! " ++
        join_segments_raw a ++ " != " ++ join_segments_raw (b ++ c))) := by
  simp [checkStillComplete, h]

/-- C1: conservation of content.  (i) Whenever the matching wrapper `_match`
returns a result, the concatenated raw text of matched ++ unmatched equals
that of the input sequence; (ii) whenever `expand` returns a sequence, its
concatenated raw text equals that of the input sequence; (iii) any
discrepancy at the conservation check raises the `RuntimeError`-class
internal-consistency error rather than producing a recoverable result. -/
theorem conservation_of_content :
    (∀ (env : GrammarEnv) (cls : SegKind) (segments : List Seg) (md pd : Nat) (m : MatchResult),
        BaseSegment.matchWrapped env cls segments md pd = .ok m →
        join_segments_raw (m.matched ++ m.unmatched) = join_segments_raw segments) ∧
    (∀ (fuel : Nat) (env : GrammarEnv) (recurse : Recurse) (pd : Nat) (segments out : List Seg),
        BaseSegment.expand fuel env recurse pd segments = .ok out →
        join_segments_raw out = join_segments_raw segments) ∧
    (∀ (s mm uu : List Seg),
        join_segments_raw (mm ++ uu) ≠ join_segments_raw s →
        ∃ msg, checkStillComplete s mm uu = .error (.runtimeError msg)) := by
  refine ⟨?_, ?_, ?_⟩
  · intro env cls segments md pd m hm
    cases h1 : BaseSegment.matchSeg env cls segments md pd with
    | error e => simp [BaseSegment.matchWrapped, h1] at hm
    | ok m0 =>
      cases h2 : checkStillComplete segments m0.matched m0.unmatched with
      | error e => simp [BaseSegment.matchWrapped, h1, h2] at hm
      | ok x =>
        have hmm : m = m0 := by
          simpa [BaseSegment.matchWrapped, h1, h2] using hm.symm
        subst hmm
        exact (checkStillComplete_ok h2).symm
  · intro fuel env recurse pd segments out hm
    cases h1 : expandLoop (fun stmt => Seg.parse fuel env recurse pd stmt) env segments with
    | error e => simp [BaseSegment.expand, expandChecked, h1] at hm
    | ok segs =>
      cases h2 : checkStillComplete segments segs [] with
      | error e => simp [BaseSegment.expand, expandChecked, h1, h2] at hm
      | ok x =>
        have hout : out = segs := by
          simpa [BaseSegment.expand, expandChecked, h1, h2] using hm.symm
        subst hout
        have h3 := checkStillComplete_ok h2
        simpa using h3.symm
  · intro s mm uu h
    exact ⟨_, checkStillComplete_error (fun hc => h hc.symm)⟩

/-- C1 witness: a concrete successful `_match` and a concrete successful
`expand` both conserve the text, and a concrete dropped segment makes the
check fail with `RuntimeError`. -/
theorem conservation_of_content_witness :
    join_segments_raw (demoM.matched ++ demoM.unmatched) =
      join_segments_raw [demoSel, demoWs] ∧
    join_segments_raw [demoParsedWrap] = join_segments_raw [demoTree] ∧
    ∃ msg, checkStillComplete [demoSel] [] [] = .error (.runtimeError msg) :=
  ⟨conservation_of_content.1 demoEnv demoStmtKind [demoSel, demoWs] 0 0 demoM rfl,
   conservation_of_content.2.1 1 demoEnvWrap (.level 0) 0 [demoTree] [demoParsedWrap] rfl,
   conservation_of_content.2.2 [demoSel] [] [] (by decide)⟩

/-- C2: when a node's parse grammar matches some but not all of its
children, `parse` (with no further recursion) yields the matched children
followed by one `UnparsableSegment` (annotated `"Nothing..."`) wrapping
exactly the unmatched remainder: the children count is `matched_count + 1`,
the last child is that unparsable node, and its reconstructed text is the
concatenation of the unmatched children's text. -/
theorem parse_incomplete_appends_unparsable
    (fuel parse_depth : Nat) (env : GrammarEnv) (g : Grammar)
    (k : SegKind) (u : Option Nat) (segs : List Seg) (p : PosMarker)
    (m : MatchResult) (u1 : Seg) (us : List Seg)
    (hsegs : segs ≠ [])
    (hg : parseGrammarOfKind env k = some g)
    (hm : MatchResult.unify (g.matchFn segs 0 parse_depth) = m)
    (hcons : join_segments_raw segs = join_segments_raw (m.matched ++ m.unmatched))
    (hmatch : m.matched ≠ [])
    (hunm : m.unmatched = u1 :: us) :
    Seg.parse (fuel + 1) env (.level 0) parse_depth (.base k u segs p) =
      .ok (.base k u
        (m.matched ++ [Seg.unpar none m.unmatched u1.pos "Nothing..."]) p) ∧
    (m.matched ++ [Seg.unpar none m.unmatched u1.pos "Nothing..."]).length =
      m.matched.length + 1 ∧
    (m.matched ++ [Seg.unpar none m.unmatched u1.pos "Nothing..."]).getLast? =
      some (Seg.unpar none m.unmatched u1.pos "Nothing...") ∧
    Seg.isUnparsable (Seg.unpar none m.unmatched u1.pos "Nothing...") = true ∧
    (Seg.unpar none m.unmatched u1.pos "Nothing...").segments = m.unmatched ∧
    Seg.reconstruct (Seg.unpar none m.unmatched u1.pos "Nothing...") =
      join_segments_raw m.unmatched := by
  have hne : segs.isEmpty = false := by
    cases segs with
    | nil => exact absurd rfl hsegs
    | cons a b => rfl
  have hmm : m.matched.isEmpty = false := by
    cases hmat : m.matched with
    | nil => exact absurd hmat hmatch
    | cons a b => rfl
  have hcheck : checkStillComplete segs m.matched (u1 :: us) = .ok () := by
    rw [← hunm]
    simp [checkStillComplete, hcons]
  refine ⟨?_, by simp, ?_, rfl, rfl, rfl⟩
  · simp only [Seg.parse, Seg.segments, hne, Bool.false_eq_true, if_false,
      Seg.parseGrammarOf, hg, hm, MatchResult.has_match, MatchResult.is_complete, hunm]
    rw [hcheck]
    simp [hmm, UnparsableSegment.init, Seg.withSegments,
      show ¬((0 : Int) > 1) by omega]
  · rw [List.getLast?_concat]

/-- C2 witness: the half grammar on `SELECT· *` matches one of three
children; parse keeps it and appends one unparsable node wrapping the two
unmatched children, whose text is `" *"`. -/
theorem parse_incomplete_appends_unparsable_witness :
    Seg.parse 1 demoEnv (.level 0) 0 demoTree =
      .ok (.base demoStmtKind (some 10)
        [demoSel, Seg.unpar none [demoWs, demoStar] ⟨6, 0⟩ "Nothing..."] ⟨0, 0⟩) ∧
    ([demoSel] ++ [Seg.unpar none [demoWs, demoStar] ⟨6, 0⟩ "Nothing..."]).length = 2 ∧
    ([demoSel] ++ [Seg.unpar none [demoWs, demoStar] ⟨6, 0⟩ "Nothing..."]).getLast? =
      some (Seg.unpar none [demoWs, demoStar] ⟨6, 0⟩ "Nothing...") ∧
    Seg.isUnparsable (Seg.unpar none [demoWs, demoStar] ⟨6, 0⟩ "Nothing...") = true ∧
    (Seg.unpar none [demoWs, demoStar] ⟨6, 0⟩ "Nothing...").segments = [demoWs, demoStar] ∧
    Seg.reconstruct (Seg.unpar none [demoWs, demoStar] ⟨6, 0⟩ "Nothing...") =
      join_segments_raw [demoWs, demoStar] :=
  parse_incomplete_appends_unparsable 0 0 demoEnv demoHalfGrammar demoStmtKind (some 10)
    [demoSel, demoWs, demoStar] ⟨0, 0⟩ demoM2 demoWs [demoStar]
    (by simp) rfl rfl rfl (by simp [demoM2]) rfl

theorem segEq_refl (x : Seg) : segEq x x = true := by
  cases x <;> simp [segEq, Seg.sameClass]

theorem pairEq_refl (x : Seg × Seg) : pairEq x x = true := by
  simp [pairEq, segEq_refl]

theorem withSegments_uid (s : Seg) (l : List Seg) : (s.withSegments l).uid = s.uid := by
  cases s <;> rfl

theorem mkSameClass_ok_shape {t : Seg} {segs : List Seg} {p : PosMarker} {r : Seg}
    (h : mkSameClass t segs p = .ok r) :
    r.uid = none ∧ r.segments = segs ∧ r.pos = p ∧ Seg.sameClass r t = true ∧
      segs ≠ [] ∧ r.reconstruct = reconstructList segs ∧
      ((∃ k2, r = Seg.base k2 none segs p) ∨ r = Seg.unpar none segs p "") := by
  cases t with
  | raw k u t0 p0 => simp [mkSameClass] at h
  | base k u0 s0 p0 =>
    cases segs with
    | nil => simp [mkSameClass, BaseSegment.init] at h
    | cons s rest =>
      simp [mkSameClass, BaseSegment.init] at h
      subst h
      refine ⟨rfl, rfl, rfl, by simp [Seg.sameClass], by simp, rfl, Or.inl ⟨k, rfl⟩⟩
  | unpar u0 s0 p0 e0 =>
    cases segs with
    | nil => simp [mkSameClass, UnparsableSegment.init] at h
    | cons s rest =>
      simp [mkSameClass, UnparsableSegment.init] at h
      subst h
      refine ⟨rfl, rfl, rfl, by simp [Seg.sameClass], by simp, rfl, Or.inr rfl⟩

theorem realign_ok_uid {n r : Seg} (h : Seg.realign n = .ok r) : r.uid = none := by
  cases h1 : realignList n.pos n.segments with
  | error e => simp [Seg.realign, h1] at h
  | ok out =>
    have h2 : mkSameClass n out n.pos = .ok r := by
      simpa [Seg.realign, h1] using h
    exact (mkSameClass_ok_shape h2).1

/-- C3 (counterexample): `parse` does *not* produce a new node — on a
concrete tree whose grammar rewraps the children, it returns the very same
object (same `uid`) with its children sequence reassigned in place, so the
original node is mutated rather than left unchanged. -/
theorem immutability_cex_parse_mutates :
    Seg.parse 1 demoEnvWrap (.level 0) 0 demoTree = .ok demoParsedWrap ∧
    demoParsedWrap.uid = demoTree.uid ∧
    listSegEq demoParsedWrap.segments demoTree.segments = false :=
  ⟨rfl, rfl, rfl⟩

/-- C3 (amended): `realign` always returns a freshly constructed node, and
`apply_fixes` returns either the input itself untouched (when no fixes are
pending or the node is a leaf) or a freshly constructed node; but `parse`
(and hence expansion during parse) returns the *same* object — same
identity — with its children updated in place, never a copy. -/
theorem copy_on_fix_but_parse_mutates :
    (∀ (n r : Seg), Seg.realign n = .ok r → r.uid = none) ∧
    (∀ (fuel : Nat) (n : Seg) (fx : Fixes) (r : Seg) (fx' : Fixes),
        Seg.applyFixes fuel n fx = .ok (r, fx') → (r = n ∧ fx' = fx) ∨ r.uid = none) ∧
    (∀ (fuel : Nat) (env : GrammarEnv) (rc : Recurse) (pd : Nat) (n r : Seg),
        Seg.parse fuel env rc pd n = .ok r → r.uid = n.uid) := by
  refine ⟨fun n r h => realign_ok_uid h, ?_, ?_⟩
  · intro fuel n fx r fx' h
    cases fuel with
    | zero => simp [Seg.applyFixes] at h
    | succ f =>
      by_cases hc : (fx.nonEmpty && !n.is_raw) = true
      · right
        simp only [Seg.applyFixes, hc, if_true] at h
        split at h
        · simp at h
        · split at h
          · simp at h
          · split at h
            · simp at h
            · split at h
              · simp at h
              · split at h
                · simp at h
                · split at h
                  · rename_i r5 heq
                    simp at h
                    rw [← h.1]
                    exact realign_ok_uid heq
                  · simp at h
      · left
        simp only [Seg.applyFixes, hc, if_false] at h
        simp at h
        exact ⟨h.1.symm, h.2.symm⟩
  · intro fuel env rc pd n r h
    cases fuel with
    | zero => simp [Seg.parse] at h
    | succ f =>
      simp only [Seg.parse] at h
      split at h
      · injection h with h
        subst h
        rfl
      · split at h
        · injection h with h
          subst h
          rfl
        · split at h
          · simp at h
          · split at h
            · simp at h
            · split at h
              · split at h
                · injection h with h
                  subst h
                  simp [withSegments_uid]
                · simp at h
              · split at h
                · split at h
                  · injection h with h
                    subst h
                    simp [withSegments_uid]
                  · simp at h
                · injection h with h
                  subst h
                  simp [withSegments_uid]

/-- C3 witness: realign yields a fresh copy, a concrete `apply_fixes` run
yields a fresh copy, and a concrete parse returns the original identity. -/
theorem copy_on_fix_but_parse_mutates_witness :
    demoRealigned.uid = none ∧
    ((demoDupFixed = demoDupTree ∧ demoEmptyFixes = demoDupFixes) ∨
      demoDupFixed.uid = none) ∧
    demoParsedWrap.uid = demoTree.uid :=
  ⟨copy_on_fix_but_parse_mutates.1 demoTree demoRealigned rfl,
   copy_on_fix_but_parse_mutates.2.1 5 demoDupTree demoDupFixes demoDupFixed demoEmptyFixes rfl,
   copy_on_fix_but_parse_mutates.2.2 1 demoEnvWrap (.level 0) 0 demoTree demoParsedWrap rfl⟩

/-- C4 (counterexample): with two structurally equal children and a single
`(anchor, replacement)` edit pair, the edit pass substitutes the replacement
for *both* children, not only the first structural match as the claim
states (the second child, equal to the anchor but in scanning position 2, is
replaced as well). -/
theorem edit_pass_cex_replaces_all_equal :
    editPass demoDupTree demoDupFixes =
      .ok (.base demoStmtKind none [demoEditB, demoEditB] ⟨0, 0⟩, demoEmptyFixes) ∧
    segEq demoDupA demoDupA2 = true ∧
    Seg.reconstruct demoEditB ≠ Seg.reconstruct demoDupA2 :=
  ⟨rfl, rfl, by decide⟩

/-- C4 (amended): in the edit pass, a pair the iteration cursor *visits*
whose anchor is structurally equal to some current child has the replacement
substituted for *every* structurally equal child and is consumed, the cursor
advancing one slot over the shrunk pending list (conjunct 1); a visited pair
with no matching anchor changes nothing (conjunct 2); hence a sole pending
pair with a matching anchor is applied to every equal child and consumed
(conjunct 3); and because the pending collection shrinks under the iterating
cursor, the pair immediately following a consumed pair is skipped in that
pass and remains pending — whatever its anchor (conjunct 4). -/
theorem edit_pass_visited_pairs_substitute_all_equal :
    (∀ (gas idx : Nat) (k : SegKind) (u : Option Nat) (segs : List Seg) (p : PosMarker)
        (edits : List (Seg × Seg)) (h : idx < edits.length),
        segs ≠ [] →
        (segs.any fun s => segEq (edits.get ⟨idx, h⟩).1 s) = true →
        editOuter (gas + 1) (.base k u segs p) edits idx =
          editOuter gas
            (.base k none
              (segs.map fun s =>
                if segEq s (edits.get ⟨idx, h⟩).1 then (edits.get ⟨idx, h⟩).2 else s) p)
            (removeFirstPairEq edits (edits.get ⟨idx, h⟩)) (idx + 1)) ∧
    (∀ (gas idx : Nat) (r : Seg) (edits : List (Seg × Seg)) (h : idx < edits.length),
        (r.segments.any fun s => segEq (edits.get ⟨idx, h⟩).1 s) = false →
        editOuter (gas + 1) r edits idx = editOuter gas r edits (idx + 1)) ∧
    (∀ (k : SegKind) (u : Option Nat) (segs : List Seg) (p : PosMarker) (a e : Seg),
        segs ≠ [] →
        (segs.any fun s => segEq a s) = true →
        editPass (.base k u segs p) ⟨[], [(a, e)], []⟩ =
          .ok (.base k none (segs.map fun s => if segEq s a then e else s) p,
            (⟨[], [], []⟩ : Fixes))) ∧
    (∀ (k : SegKind) (u : Option Nat) (segs : List Seg) (p : PosMarker) (a1 e1 a2 e2 : Seg),
        segs ≠ [] →
        (segs.any fun s => segEq a1 s) = true →
        editPass (.base k u segs p) ⟨[], [(a1, e1), (a2, e2)], []⟩ =
          .ok (.base k none (segs.map fun s => if segEq s a1 then e1 else s) p,
            (⟨[], [(a2, e2)], []⟩ : Fixes))) := by
  refine ⟨?_, ?_, ?_, ?_⟩
  · intro gas idx k u segs p edits h hne hhit
    cases segs with
    | nil => exact absurd rfl hne
    | cons x xs =>
      simp [editOuter, h, hhit, Seg.segments, Seg.pos, mkSameClass, BaseSegment.init]
      intro hx hxs
      simp only [List.any_eq_true, List.get_eq_getElem] at hhit
      obtain ⟨s, hs, hseq⟩ := hhit
      rcases List.mem_cons.mp hs with rfl | hmem
      · exact absurd hseq (by simp [hx])
      · exact absurd hseq (by simp [hxs s hmem])
  · intro gas idx r edits h hmiss
    simp [editOuter, h, hmiss]
    intro x hx hseg
    simp only [List.any_eq_false] at hmiss
    exact absurd hseg (by simpa using hmiss x hx)
  · intro k u segs p a e hne hhit
    cases segs with
    | nil => exact absurd rfl hne
    | cons x xs =>
      simp only [editPass, editOuter]
      simp [hhit, Seg.segments, Seg.pos, mkSameClass, BaseSegment.init,
        removeFirstPairEq, pairEq_refl]
  · intro k u segs p a1 e1 a2 e2 hne hhit
    cases segs with
    | nil => exact absurd rfl hne
    | cons x xs =>
      simp only [editPass, editOuter]
      simp [hhit, Seg.segments, Seg.pos, mkSameClass, BaseSegment.init,
        removeFirstPairEq, pairEq_refl]

/-- C4 witness: at the concrete duplicated tree — a visited matching pair
replaces both equal children with the cursor skipping a slot, a visited
non-matching pair changes nothing, a sole pending pair is applied to both
equal children and consumed, and of two pending pairs the second stays
pending after the first is applied. -/
theorem edit_pass_visited_pairs_substitute_all_equal_witness :
    editOuter 2 demoDupTree [(demoDupA, demoEditB), (demoDupA2, demoEditB)] 0 =
      editOuter 1 (.base demoStmtKind none [demoEditB, demoEditB] ⟨0, 0⟩)
        [(demoDupA2, demoEditB)] 1 ∧
    editOuter 1 demoDupTree [(demoWs, demoEditB)] 0 =
      editOuter 0 demoDupTree [(demoWs, demoEditB)] 1 ∧
    editPass demoDupTree demoDupFixes =
      .ok (.base demoStmtKind none
        ([demoDupA, demoDupA2].map fun s => if segEq s demoDupA then demoEditB else s)
        ⟨0, 0⟩, (⟨[], [], []⟩ : Fixes)) ∧
    editPass demoDupTree ⟨[], [(demoDupA, demoEditB), (demoDupA2, demoEditB)], []⟩ =
      .ok (.base demoStmtKind none
        ([demoDupA, demoDupA2].map fun s => if segEq s demoDupA then demoEditB else s)
        ⟨0, 0⟩, (⟨[], [(demoDupA2, demoEditB)], []⟩ : Fixes)) :=
  ⟨edit_pass_visited_pairs_substitute_all_equal.1 1 0 demoStmtKind (some 30)
      [demoDupA, demoDupA2] ⟨0, 0⟩ [(demoDupA, demoEditB), (demoDupA2, demoEditB)]
      (by decide) (by simp) (by decide),
   edit_pass_visited_pairs_substitute_all_equal.2.1 0 0 demoDupTree
      [(demoWs, demoEditB)] (by decide) (by decide),
   edit_pass_visited_pairs_substitute_all_equal.2.2.1 demoStmtKind (some 30)
      [demoDupA, demoDupA2] ⟨0, 0⟩ demoDupA demoEditB (by simp) (by decide),
   edit_pass_visited_pairs_substitute_all_equal.2.2.2 demoStmtKind (some 30)
      [demoDupA, demoDupA2] ⟨0, 0⟩ demoDupA demoEditB demoDupA2 demoEditB
      (by simp) (by decide)⟩

theorem reconstructList_eq_of_map_eq : ∀ {a b : List Seg},
    a.map Seg.reconstruct = b.map Seg.reconstruct →
    reconstructList a = reconstructList b := by
  intro a
  induction a with
  | nil =>
    intro b h
    cases b with
    | nil => rfl
    | cons y ys => simp at h
  | cons x xs ih =>
    intro b h
    cases b with
    | nil => simp at h
    | cons y ys =>
      simp only [List.map_cons, List.cons.injEq] at h
      simp [reconstructList, h.1, ih h.2]

theorem realign_props_all : ∀ N : Nat,
    (∀ (running : PosMarker) (seg s' : Seg), sizeOf seg ≤ N →
        realignOne running seg = .ok s' →
        s'.reconstruct = seg.reconstruct ∧ Seg.wf s' = true) ∧
    (∀ (running : PosMarker) (todo out : List Seg), sizeOf todo ≤ N →
        realignList running todo = .ok out →
        out.map Seg.reconstruct = todo.map Seg.reconstruct ∧ wfList out = true ∧
        out.length = todo.length) := by
  intro N
  induction N using Nat.strong_induction_on with
  | _ N ih =>
    constructor
    · intro running seg s' hsz h
      cases seg with
      | raw k u t p =>
        simp [realignOne] at h
        subst h
        exact ⟨rfl, rfl⟩
      | base k u segs p =>
        cases segs with
        | nil => simp [realignOne, mkRawSameClass] at h
        | cons s rest =>
          cases h1 : realignList running (s :: rest) with
          | error e => simp [realignOne, h1] at h
          | ok inner =>
            have h2 : mkSameClass (.base k u (s :: rest) p) inner running = .ok s' := by
              simpa [realignOne, h1] using h
            have hsz2 : sizeOf (s :: rest) < N := by
              have hlt : sizeOf (s :: rest) < sizeOf (Seg.base k u (s :: rest) p) := by
                simp
                omega
              omega
            have ihl := (ih (sizeOf (s :: rest)) hsz2).2 running (s :: rest) inner le_rfl h1
            obtain ⟨_, hsegs, _, _, hne2, hrec, hshape⟩ := mkSameClass_ok_shape h2
            constructor
            · rw [hrec]
              simpa [Seg.reconstruct] using reconstructList_eq_of_map_eq ihl.1
            · have hlen : inner.length = (s :: rest).length := ihl.2.2
              have hinne : inner.isEmpty = false := by
                cases inner with
                | nil => simp at hlen
                | cons i is => rfl
              cases hshape with
              | inl hsh =>
                obtain ⟨k2, hk⟩ := hsh
                subst hk
                simp [Seg.wf, hinne, ihl.2.1]
              | inr hsh =>
                subst hsh
                simp [Seg.wf, hinne, ihl.2.1]
      | unpar u segs p e =>
        cases segs with
        | nil => simp [realignOne, mkRawSameClass] at h
        | cons s rest =>
          cases h1 : realignList running (s :: rest) with
          | error e2 => simp [realignOne, h1] at h
          | ok inner =>
            have h2 : mkSameClass (.unpar u (s :: rest) p e) inner running = .ok s' := by
              simpa [realignOne, h1] using h
            have hsz2 : sizeOf (s :: rest) < N := by
              have hlt : sizeOf (s :: rest) < sizeOf (Seg.unpar u (s :: rest) p e) := by
                simp
                omega
              omega
            have ihl := (ih (sizeOf (s :: rest)) hsz2).2 running (s :: rest) inner le_rfl h1
            obtain ⟨_, hsegs, _, _, hne2, hrec, hshape⟩ := mkSameClass_ok_shape h2
            constructor
            · rw [hrec]
              simpa [Seg.reconstruct] using reconstructList_eq_of_map_eq ihl.1
            · have hlen : inner.length = (s :: rest).length := ihl.2.2
              have hinne : inner.isEmpty = false := by
                cases inner with
                | nil => simp at hlen
                | cons i is => rfl
              cases hshape with
              | inl hsh =>
                obtain ⟨k2, hk⟩ := hsh
                subst hk
                simp [Seg.wf, hinne, ihl.2.1]
              | inr hsh =>
                subst hsh
                simp [Seg.wf, hinne, ihl.2.1]
    · intro running todo out hsz h
      cases todo with
      | nil =>
        simp [realignList] at h
        subst h
        simp [wfList]
      | cons seg rest =>
        cases h1 : realignOne running seg with
        | error e => simp [realignList, h1] at h
        | ok seg' =>
          cases h2 : realignList
              (running.advance_by seg'.reconstruct
                (seg.pos.statement_index - running.statement_index)) rest with
          | error e => simp [realignList, h1, h2] at h
          | ok rest' =>
            have hout : out = seg' :: rest' := by
              simpa [realignList, h1, h2] using h.symm
            subst hout
            have hs1 : sizeOf seg < N := by
              have : sizeOf seg < sizeOf (seg :: rest) := by
                simp
                omega
              omega
            have hs2 : sizeOf rest < N := by
              have : sizeOf rest < sizeOf (seg :: rest) := by
                simp
              omega
            have iho := (ih (sizeOf seg) hs1).1 running seg seg' le_rfl h1
            have ihl := (ih (sizeOf rest) hs2).2 _ rest rest' le_rfl h2
            refine ⟨?_, ?_, ?_⟩
            · simp [iho.1, ihl.1]
            · simp [wfList, iho.2, ihl.2.1]
            · simp [ihl.2.2]

theorem realign_wf_ok_all : ∀ N : Nat,
    (∀ seg : Seg, sizeOf seg ≤ N → Seg.wf seg = true →
        ∀ running, ∃ s', realignOne running seg = .ok s') ∧
    (∀ todo : List Seg, sizeOf todo ≤ N → wfList todo = true →
        ∀ running, ∃ out, realignList running todo = .ok out) := by
  intro N
  induction N using Nat.strong_induction_on with
  | _ N ih =>
    constructor
    · intro seg hsz hwf running
      cases seg with
      | raw k u t p => exact ⟨_, rfl⟩
      | base k u segs p =>
        cases segs with
        | nil => simp [Seg.wf] at hwf
        | cons s rest =>
          have hwfl : wfList (s :: rest) = true := by
            simpa [Seg.wf] using hwf
          have hsz2 : sizeOf (s :: rest) < N := by
            have hlt : sizeOf (s :: rest) < sizeOf (Seg.base k u (s :: rest) p) := by
              simp
              omega
            omega
          obtain ⟨inner, h1⟩ := (ih (sizeOf (s :: rest)) hsz2).2 (s :: rest) le_rfl hwfl running
          have hlen :=
            ((realign_props_all (sizeOf (s :: rest))).2 running (s :: rest) inner le_rfl h1).2.2
          cases inner with
          | nil => simp at hlen
          | cons i is =>
            exact ⟨.base k none (i :: is) running,
              by simp [realignOne, h1, mkSameClass, BaseSegment.init]⟩
      | unpar u segs p e =>
        cases segs with
        | nil => simp [Seg.wf] at hwf
        | cons s rest =>
          have hwfl : wfList (s :: rest) = true := by
            simpa [Seg.wf] using hwf
          have hsz2 : sizeOf (s :: rest) < N := by
            have hlt : sizeOf (s :: rest) < sizeOf (Seg.unpar u (s :: rest) p e) := by
              simp
              omega
            omega
          obtain ⟨inner, h1⟩ := (ih (sizeOf (s :: rest)) hsz2).2 (s :: rest) le_rfl hwfl running
          have hlen :=
            ((realign_props_all (sizeOf (s :: rest))).2 running (s :: rest) inner le_rfl h1).2.2
          cases inner with
          | nil => simp at hlen
          | cons i is =>
            exact ⟨.unpar none (i :: is) running "",
              by simp [realignOne, h1, mkSameClass, UnparsableSegment.init]⟩
    · intro todo hsz hwf running
      cases todo with
      | nil => exact ⟨[], rfl⟩
      | cons seg rest =>
        have hw : Seg.wf seg = true ∧ wfList rest = true := by
          simpa [wfList, Bool.and_eq_true] using hwf
        have hs1 : sizeOf seg < N := by
          have : sizeOf seg < sizeOf (seg :: rest) := by
            simp
            omega
          omega
        have hs2 : sizeOf rest < N := by
          have : sizeOf rest < sizeOf (seg :: rest) := by
            simp
          omega
        obtain ⟨seg', h1⟩ := (ih (sizeOf seg) hs1).1 seg le_rfl hw.1 running
        obtain ⟨rest', h2⟩ := (ih (sizeOf rest) hs2).2 rest le_rfl hw.2
          (running.advance_by seg'.reconstruct
            (seg.pos.statement_index - running.statement_index))
        exact ⟨seg' :: rest', by simp [realignList, h1, h2]⟩

/-- C7: realignment is idempotent up to the engine's structural equality
(`__eq__`: same class, same reconstructed text, same position marker):
whenever `realign(n)` succeeds with `r`, `realign(r)` succeeds as well and
its result is structurally equal to `r`. -/
theorem realign_idempotent (n r : Seg) (h : Seg.realign n = .ok r) :
    exceptIsOk (Seg.realign r) = true ∧
    ∀ r', Seg.realign r = .ok r' → segEq r' r = true := by
  cases h1 : realignList n.pos n.segments with
  | error e => simp [Seg.realign, h1] at h
  | ok out =>
    have h2 : mkSameClass n out n.pos = .ok r := by
      simpa [Seg.realign, h1] using h
    obtain ⟨huid, hsegs, hpos, hcls, hne, hrec, hshape⟩ := mkSameClass_ok_shape h2
    have hprops := (realign_props_all (sizeOf n.segments)).2 n.pos n.segments out le_rfl h1
    have hwf : wfList out = true := hprops.2.1
    obtain ⟨out2, h3⟩ := (realign_wf_ok_all (sizeOf out)).2 out le_rfl hwf r.pos
    have hprops2 := (realign_props_all (sizeOf out)).2 r.pos out out2 le_rfl h3
    have hlen2 : out2.length = out.length := hprops2.2.2
    have hrecEq : reconstructList out2 = reconstructList out :=
      reconstructList_eq_of_map_eq hprops2.1
    cases hshape with
    | inl hsh =>
      obtain ⟨k2, hk⟩ := hsh
      subst hk
      simp only [Seg.pos] at h3
      cases out2 with
      | nil =>
        cases out with
        | nil => exact absurd rfl hne
        | cons a b => simp at hlen2
      | cons o os =>
        have hre : Seg.realign (Seg.base k2 none out n.pos) =
            .ok (Seg.base k2 none (o :: os) n.pos) := by
          simp [Seg.realign, Seg.segments, Seg.pos, h3, mkSameClass, BaseSegment.init]
        refine ⟨by simp [hre, exceptIsOk], ?_⟩
        intro r' h'
        rw [hre] at h'
        injection h' with h'
        subst h'
        simp [segEq, Seg.sameClass, Seg.reconstruct, Seg.pos, hrecEq]
    | inr hsh =>
      subst hsh
      simp only [Seg.pos] at h3
      cases out2 with
      | nil =>
        cases out with
        | nil => exact absurd rfl hne
        | cons a b => simp at hlen2
      | cons o os =>
        have hre : Seg.realign (Seg.unpar none out n.pos "") =
            .ok (Seg.unpar none (o :: os) n.pos "") := by
          simp [Seg.realign, Seg.segments, Seg.pos, h3, mkSameClass, UnparsableSegment.init]
        refine ⟨by simp [hre, exceptIsOk], ?_⟩
        intro r' h'
        rw [hre] at h'
        injection h' with h'
        subst h'
        simp [segEq, Seg.sameClass, Seg.reconstruct, Seg.pos, hrecEq]

/-- C7 witness: realigning the concrete realigned tree succeeds, reproduces
it exactly, and the result is structurally equal to it. -/
theorem realign_idempotent_witness :
    Seg.realign demoRealigned = Except.ok demoRealigned ∧
    segEq demoRealigned demoRealigned = true :=
  ⟨rfl, (realign_idempotent demoTree demoRealigned rfl).2 demoRealigned rfl⟩
